import Mathlib

/-!
Verification development for the Protosite backend
(express_backend.ts): the virtual project tree built by
buildAppHierarchy, the GitHub OAuth session store
(initiate / callback / status poll), and the repository export walk
(createFiles / createOrUpdateFile).

JavaScript objects are modelled as ordered association lists
(insertion order preserved, property assignment replaces an existing
key in place and appends a fresh key at the end), matching the
semantics of Object.entries and property assignment used by the code.
-/

set_option maxHeartbeats 1000000

/-- A node of the WebContainer-style file tree used by the backend:
either a leaf carrying file contents, or a directory object mapping
names to child nodes (ordered, as a JS object). -/
inductive FSNode where
  | file (contents : String)
  | dir (entries : List (String × FSNode))

/-- A directory object: ordered list of name/node bindings. -/
abbrev Entries := List (String × FSNode)

/-- JS property assignment obj[k] = v on an ordered object: replace the
first binding of k in place, otherwise append (k, v) at the end. -/
def objInsert (k : String) (v : FSNode) : Entries → Entries
  | [] => [(k, v)]
  | (k', v') :: rest => if k' = k then (k, v) :: rest else (k', v') :: objInsert k v rest

/-- JS property read obj[k]: first binding of k, if any. -/
def assocLookup : Entries → String → Option FSNode
  | [], _ => none
  | (k', v) :: rest, k => if k' = k then some v else assocLookup rest k

/-- Keys of a directory object, in order. -/
def entryKeys (es : Entries) : List String := es.map Prod.fst

/-- Follow a path of names through directory nodes and return the node
at the end (none on an empty path, a missing name, or a non-directory
on the way). -/
def lookupPath (es : Entries) : List String → Option FSNode
  | [] => none
  | [k] => assocLookup es k
  | k :: ks =>
    match assocLookup es k with
    | some (FSNode.dir sub) => lookupPath sub ks
    | _ => none

/-- The chained property assignment the merge loops perform, e.g.
appSchema.src.directory.components.directory[file] = v: navigate the
given path through directory nodes and assign v at key k in the final
directory. none models the TypeError JS raises when a path component
is missing or is not a directory. -/
def setIn (es : Entries) : List String → String → FSNode → Option Entries
  | [], k, v => some (objInsert k v es)
  | p :: ps, k, v =>
    match assocLookup es p with
    | some (FSNode.dir sub) => (setIn sub ps k v).map (fun sub' => objInsert p (FSNode.dir sub') es)
    | _ => none

/-- The effect of one merge loop on the directory it targets: insert
each filename as a file leaf, in payload order. -/
def mergeEntries (d : Entries) : List (String × String) → Entries
  | [] => d
  | (f, c) :: rest => mergeEntries (objInsert f (FSNode.file c) d) rest

/-- One merge loop of buildAppHierarchy: for each [file, code] pair of
the payload section, assign a file leaf at the end of the given path
(per-iteration navigation, as in the source); a failed navigation
aborts the loop, modelling the thrown TypeError. -/
def mergeSection (path : List String) (fs : List (String × String)) (es : Entries) : Option Entries :=
  match fs with
  | [] => some es
  | (f, c) :: rest =>
    match setIn es path f (FSNode.file c) with
    | some es' => mergeSection path rest es'
    | none => none

/-- The generated payload handed to buildAppHierarchy: three optional
sections (appFiles?.components and so on); none models a missing /
null section, which the guard skips. Each present section is the
Object.entries list of a string-to-string object, so its keys are
pairwise distinct in every payload the code can receive. -/
structure GeneratedApp where
  components : Option (List (String × String))
  styles : Option (List (String × String))
  pages : Option (List (String × String))
def packageJsonContents : String :=
  "\x7b\n  \"name\": \"canva-vite-react-app\",\n  \"version\": \"1.0.0\",\n  \"description\": \"Your Canva Design as a Vite + React Project\",\n  \"type\": \"module\",\n  \"scripts\": \x7b\n    \"dev\": \"vite\",\n    \"build\": \"vite build\",\n    \"preview\": \"vite preview\",\n    \"serve\": \"vite preview --port 4173\"\n  \x7d,\n  \"devDependencies\": \x7b\n    \"@vitejs/plugin-react\": \"^4.0.0\",\n    \"vite\": \"^5.0.0\",\n    \"autoprefixer\": \"^10.4.14\",\n    \"postcss\": \"^8.4.24\"\n  \x7d,\n  \"dependencies\": \x7b\n    \"react\": \"^18.2.0\",\n    \"react-dom\": \"^18.2.0\",\n    \"react-router-dom\": \"^6.23.0\",\n    \"clsx\": \"^2.1.0\",\n    \"@heroicons/react\": \"^2.1.0\",\n    \"react-icons\": \"^4.12.0\",\n    \"@headlessui/react\": \"^1.7.0\"\n  \x7d,\n  \"keywords\": [\n    \"vite\",\n    \"react\",\n    \"tailwind\",\n    \"css\",\n    \"frontend\",\n    \"modern\"\n  ],\n  \"author\": \"\",\n  \"license\": \"MIT\",\n  \"engines\": \x7b\n    \"node\": \">=18.0.0\"\n  \x7d\n\x7d\n"

def viteConfigContents : String :=
  "import \x7b defineConfig \x7d from \x27vite\x27\nimport react from \x27@vitejs/plugin-react\x27\n\nexport default defineConfig(\x7b\n  plugins: [react()],\n  \n  // Basic server configuration\n  server: \x7b\n    port: 3000,\n    host: true, // Listen on all addresses\n    open: true  // Open browser on server start\n  \x7d,\n  \n  // Build configuration\n  build: \x7b\n    outDir: \x27dist\x27,\n    sourcemap: true,\n    minify: \x27esbuild\x27\n  \x7d,\n  \n  // Public base path\n  base: \x27./\x27,\n  \n  // Define global constants\n  define: \x7b\n    __APP_VERSION__: JSON.stringify(process.env.npm_package_version)\n  \x7d\n\x7d)"

def indexHtmlContents : String :=
  "<!DOCTYPE html>\n<html lang=\"en\">\n  <head>\n    <meta charset=\"UTF-8\" />\n    <link rel=\"icon\" type=\"image/svg+xml\" href=\"/vite.svg\" />\n    <link rel=\"preconnect\" href=\"https://fonts.googleapis.com\" />\n    <link rel=\"preconnect\" href=\"https://fonts.gstatic.com\" crossorigin />\n    <link href=\"https://fonts.googleapis.com/css2?family=Inter:wght@400;600&display=swap\" rel=\"stylesheet\" />\n    <meta name=\"viewport\" content=\"width=device-width, initial-scale=1.0\" />\n    <title>Vite App</title>\n  </head>\n  <body>\n    <div id=\"root\"></div>\n    <script type=\"module\" src=\"/src/main.jsx\"></script>\n  </body>\n</html>"

def readmeContent : String :=
  "# Canva Design Export\n\nThis project was generated from a Canva design using Protosite.\n\n## Getting Started\n\n\x60\x60\x60bash\nnpm install\nnpm run dev\n\x60\x60\x60\n\n## About\n\nThis application was automatically generated from your Canva design and converted into a working web application.\n"

/-- AppSchema.getAppSchema: the fixed skeleton returned for every
project - package.json, vite.config.js, index.html at the root and a
src directory with empty components and styles subdirectories. -/
def getAppSchema : Entries :=
  [("package.json", FSNode.file packageJsonContents),
   ("vite.config.js", FSNode.file viteConfigContents),
   ("index.html", FSNode.file indexHtmlContents),
   ("src", FSNode.dir
     [("components", FSNode.dir []),
      ("styles", FSNode.dir [])])]

/-- The body of buildAppHierarchy applied to a given starting schema:
the components loop assigns under src/components, then the styles loop
under src/styles, then the pages loop directly under src; a section
that is absent (falsy) is skipped. The source always starts from the
fresh skeleton; the schema is a parameter so that re-merging into an
existing tree can be stated. -/
def buildAppHierarchyFrom (appFiles : GeneratedApp) (appSchema : Entries) : Option Entries :=
  (match appFiles.components with
   | some fs => mergeSection ["src", "components"] fs appSchema
   | none => some appSchema).bind fun s1 =>
  (match appFiles.styles with
   | some fs => mergeSection ["src", "styles"] fs s1
   | none => some s1).bind fun s2 =>
  (match appFiles.pages with
   | some fs => mergeSection ["src"] fs s2
   | none => some s2)

/-- buildAppHierarchy: merge the generated payload into a freshly
initialized skeleton (the source calls AppSchema.getAppSchema() anew
on every invocation). -/
def buildAppHierarchy (appFiles : GeneratedApp) : Option Entries :=
  buildAppHierarchyFrom appFiles getAppSchema

/-- The /api/upload handler state update: this.appStructure is
assigned buildAppHierarchy(appFiles), computed without reading the
previous project state. -/
def uploadStep (appFiles : GeneratedApp) (_appStructure : Entries) : Option Entries :=
  buildAppHierarchy appFiles

/-- A GitHub OAuth session as stored in this.githubAuthSessions:
creation timestamp (Date.now(), milliseconds) and the access token
once the callback has attached one. -/
structure AuthSession where
  timestamp : Int
  token : Option String
deriving DecidableEq

/-- The in-memory session map, keyed by the random state nonce.
JS Maps keep insertion order and have at most one binding per key;
the model is an ordered association list. -/
abbrev SessionStore := List (String × AuthSession)

/-- Map.get: first binding of the key. -/
def mapGet : SessionStore → String → Option AuthSession
  | [], _ => none
  | (k', v) :: rest, k => if k' = k then some v else mapGet rest k

/-- Map.set: replace an existing binding in place, else append. -/
def mapSet (k : String) (v : AuthSession) : SessionStore → SessionStore
  | [] => [(k, v)]
  | (k', v') :: rest => if k' = k then (k, v) :: rest else (k', v') :: mapSet k v rest

/-- Map.delete: remove the binding of the key. -/
def mapDelete (k : String) (st : SessionStore) : SessionStore :=
  st.filter (fun e => !(decide (e.1 = k)))

/-- The 10-minute session TTL, in milliseconds (10 * 60 * 1000). -/
def TTL_MS : Int := 10 * 60 * 1000

/-- cleanupAuthSessions: drop every session strictly older than ten
minutes (session.timestamp < now - TTL). -/
def cleanupAuthSessions (now : Int) (st : SessionStore) : SessionStore :=
  st.filter (fun e => !(decide (e.2.timestamp < now - TTL_MS)))

/-- The POST /api/github/auth handler, after the state nonce has been
drawn: store a fresh tokenless session under the nonce, then run the
lazy expiry sweep. -/
def initiate (state : String) (now : Int) (st : SessionStore) : SessionStore :=
  cleanupAuthSessions now (mapSet state ⟨now, none⟩ st)

/-- User-visible outcome of the GET /api/github/callback handler. -/
inductive CallbackResult where
  | invalidSession
  | successPage
  | errorPage
deriving DecidableEq

/-- The callback handler for a well-formed code/state pair. exchange
is the outcome of the token round-trip with GitHub: some token when
tokenData.access_token is present, none when the exchange fails or
throws (both reach the catch block and render the error page, leaving
the store untouched). An unknown state renders the invalid-session
page. On success the token is attached to the stored session. -/
def completeCallback (state : String) (exchange : Option String) (st : SessionStore) :
    CallbackResult × SessionStore :=
  match mapGet st state with
  | none => (CallbackResult.invalidSession, st)
  | some sess =>
    match exchange with
    | some tok => (CallbackResult.successPage, mapSet state { sess with token := some tok } st)
    | none => (CallbackResult.errorPage, st)

/-- Response of the POST /api/github/auth/status handler. -/
inductive PollResult where
  | notFound
  | expired
  | pending
  | authorized (token : String)
deriving DecidableEq

/-- The status-poll handler for a well-formed state string: 404 for an
unknown nonce; 410 plus deletion when the session age strictly exceeds
the TTL; otherwise authenticated true with the token, or
authenticated false while still pending. The handler is total - it
answers every query with a structured response. -/
def pollStatus (state : String) (now : Int) (st : SessionStore) : PollResult × SessionStore :=
  match mapGet st state with
  | none => (PollResult.notFound, st)
  | some sess =>
    if TTL_MS < now - sess.timestamp then
      (PollResult.expired, mapDelete state st)
    else
      match sess.token with
      | some t => (PollResult.authorized t, st)
      | none => (PollResult.pending, st)

/-- One externally triggered operation on the session store. -/
inductive AuthEvent where
  | init (state : String) (now : Int)
  | callback (state : String) (exchange : Option String)
  | poll (state : String) (now : Int)
deriving DecidableEq

/-- The store after handling one event (only the state effect). -/
def authStep (st : SessionStore) : AuthEvent → SessionStore
  | AuthEvent.init s n => initiate s n st
  | AuthEvent.callback s ex => (completeCallback s ex st).2
  | AuthEvent.poll s n => (pollStatus s n st).2

/-- The store after a sequence of events. -/
def runAuth (st : SessionStore) (evts : List AuthEvent) : SessionStore :=
  evts.foldl authStep st

/-- One createOrUpdateFile call made during export: either a content
write of a File leaf at its full path, or the synthetic README write
(path README.md with the fixed readmeContent). -/
inductive WriteCall where
  | content (path : String) (contents : String)
  | readme
deriving DecidableEq

/-- Count how many writes of the trace are README writes. -/
def readmeCount (ws : List WriteCall) : Nat :=
  ws.countP (fun w => decide (w = WriteCall.readme))

/-- State of an export in progress: the createOrUpdateFile calls
attempted so far, in order, and whether one of them has thrown. After
a throw the exception propagates through every pending loop (none of
them catches), so no further write is attempted. -/
structure ExpSt where
  writes : List WriteCall
  failed : Bool
deriving DecidableEq

/-- Attempt one createOrUpdateFile call: a no-op when a previous call
already threw; otherwise record the call. fail n decides whether the
n-th attempted call (0-based) throws. -/
def attemptWrite (fail : Nat → Bool) (w : WriteCall) (s : ExpSt) : ExpSt :=
  if s.failed then s
  else { writes := s.writes ++ [w], failed := fail s.writes.length }

/-- The for-of loop of createFiles over Object.entries(directoryObj):
a File entry is written at its full path; a directory entry is handled
by the recursive createFiles call, which is its own loop followed by
the unconditional README write at the end of that invocation (the
recursive call is unfolded here so that the recursion is structural;
createFiles below is exactly loop-then-README). -/
def createFilesLoop (fail : Nat → Bool) (currentPath : String) : Entries → ExpSt → ExpSt
  | [], s => s
  | (key, v) :: rest, s =>
    let fullPath := if currentPath = "" then key else currentPath ++ "/" ++ key
    let s' :=
      match v with
      | FSNode.file contents => attemptWrite fail (WriteCall.content fullPath contents) s
      | FSNode.dir sub => attemptWrite fail WriteCall.readme (createFilesLoop fail fullPath sub s)
    createFilesLoop fail currentPath rest s'

/-- createFiles: loop over the entries, then create README.md at the
end of the invocation. -/
def createFiles (fail : Nat → Bool) (currentPath : String) (entries : Entries) (s : ExpSt) : ExpSt :=
  attemptWrite fail WriteCall.readme (createFilesLoop fail currentPath entries s)

/-- A write oracle under which no createOrUpdateFile call throws. -/
def noFail : Nat → Bool := fun _ => false

/-- A write oracle under which exactly the k-th attempted call throws. -/
def failAt (k : Nat) : Nat → Bool := fun n => decide (n = k)

/-- The /api/github/export walk over projectData, started with the
empty current path and no writes performed. -/
def exportRun (fail : Nat → Bool) (entries : Entries) : ExpSt :=
  createFiles fail "" entries ⟨[], false⟩

/-- The success flag of the export response: true runs the res.json
success branch; a throw anywhere in the walk reaches the catch block,
which answers 500 with success false. -/
def exportRespSuccess (fail : Nat → Bool) (entries : Entries) : Bool :=
  !(exportRun fail entries).failed

/-- Outcome of the octokit.rest.repos.getContent probe at the start of
createOrUpdateFile: an existing file with its sha, an existing
non-file result (a directory listing or other type), a 404 error, or
an error with any other status. -/
inductive GetContentResult where
  | fileFound (sha : String)
  | nonFile
  | notFound
  | otherError
deriving DecidableEq

/-- The parameters passed to createOrUpdateFileContents: path, raw
content (base64 transport encoding not modelled) and the optional sha
of the existing file. -/
structure UpsertParams where
  path : String
  content : String
  sha : Option String
deriving DecidableEq

/-- What a single createOrUpdateFile call does after the probe: issue
the write with some parameters, or rethrow and abort without writing. -/
inductive UpsertOutcome where
  | call (params : UpsertParams)
  | aborted
deriving DecidableEq

/-- createOrUpdateFile: probe for an existing file; keep its sha only
when the probe returned a single entry of type file; a 404 probe error
means the file does not exist yet and is fine for creation; any other
probe error is rethrown before the write. The write includes the sha
field exactly when a sha was collected. -/
def createOrUpdateFile (path content : String) (probe : GetContentResult) : UpsertOutcome :=
  match probe with
  | GetContentResult.fileFound sha => UpsertOutcome.call ⟨path, content, some sha⟩
  | GetContentResult.nonFile => UpsertOutcome.call ⟨path, content, none⟩
  | GetContentResult.notFound => UpsertOutcome.call ⟨path, content, none⟩
  | GetContentResult.otherError => UpsertOutcome.aborted

theorem mapGet_mapSet_self (k : String) (v : AuthSession) (st : SessionStore) :
    mapGet (mapSet k v st) k = some v := by
  induction st with
  | nil => simp [mapSet, mapGet]
  | cons e rest ih =>
    obtain ⟨k', v'⟩ := e
    by_cases h : k' = k
    · simp [mapSet, mapGet, h]
    · simp [mapSet, mapGet, h, ih]

theorem mapGet_mapSet_ne (k k' : String) (v : AuthSession) (st : SessionStore)
    (h : k' ≠ k) : mapGet (mapSet k' v st) k = mapGet st k := by
  induction st with
  | nil => simp [mapSet, mapGet, h]
  | cons e rest ih =>
    obtain ⟨k'', v''⟩ := e
    by_cases h2 : k'' = k'
    · subst h2
      simp [mapSet, mapGet, h]
    · simp [mapSet, mapGet, h2, ih]

theorem mapGet_filter_of_keep (st : SessionStore) (k : String) (v : AuthSession)
    (p : String × AuthSession → Bool) (hget : mapGet st k = some v) (hp : p (k, v) = true) :
    mapGet (st.filter p) k = some v := by
  induction st with
  | nil => simp [mapGet] at hget
  | cons e rest ih =>
    obtain ⟨k', v'⟩ := e
    by_cases h : k' = k
    · subst h
      simp [mapGet] at hget
      subst hget
      simp [List.filter, hp, mapGet]
    · simp [mapGet, h] at hget
      rcases hcase : p (k', v') with _ | _
      · simp [List.filter, hcase, ih hget]
      · simp [List.filter, hcase, mapGet, h, ih hget]

theorem mapGet_mem (st : SessionStore) (k : String) (v : AuthSession)
    (hget : mapGet st k = some v) : (k, v) ∈ st := by
  induction st with
  | nil => simp [mapGet] at hget
  | cons e rest ih =>
    obtain ⟨k', v'⟩ := e
    by_cases h : k' = k
    · subst h
      simp [mapGet] at hget
      simp [hget]
    · simp [mapGet, h] at hget
      simp [ih hget]

theorem mem_mapSet (st : SessionStore) (k k' : String) (v v' : AuthSession)
    (hmem : (k, v) ∈ mapSet k' v' st) : (k, v) ∈ st ∨ (k = k' ∧ v = v') := by
  induction st with
  | nil =>
    simp [mapSet] at hmem
    exact Or.inr hmem
  | cons e rest ih =>
    obtain ⟨k'', v''⟩ := e
    by_cases h : k'' = k'
    · subst h
      simp [mapSet] at hmem
      rcases hmem with h1 | h1
      · exact Or.inr h1
      · exact Or.inl (List.mem_cons_of_mem _ h1)
    · simp [mapSet, h] at hmem
      rcases hmem with h1 | h1
      · exact Or.inl (by simp [h1])
      · rcases ih h1 with h2 | h2
        · exact Or.inl (List.mem_cons_of_mem _ h2)
        · exact Or.inr h2

theorem mapGet_mapDelete_self (k : String) (st : SessionStore) :
    mapGet (mapDelete k st) k = none := by
  induction st with
  | nil => simp [mapDelete, mapGet]
  | cons e rest ih =>
    obtain ⟨k', v'⟩ := e
    by_cases h : k' = k
    · subst h
      simpa [mapDelete, List.filter] using ih
    · simpa [mapDelete, List.filter, h, mapGet] using ih

/-- C6: every write performed during export is an upsert: the probe
for an existing file runs first; when it reports an existing file the
update call carries that file's sha; in every other non-error case
(404, or an existing non-file result) the write is issued fresh with
no sha; a probe failure other than 404 is rethrown, aborting the write. -/
theorem claim_C6_upsert_sha (path content : String) (probe : GetContentResult) :
    (∀ sha, createOrUpdateFile path content probe = UpsertOutcome.call ⟨path, content, some sha⟩ ↔
      probe = GetContentResult.fileFound sha) ∧
    (createOrUpdateFile path content probe = UpsertOutcome.call ⟨path, content, none⟩ ↔
      (probe = GetContentResult.notFound ∨ probe = GetContentResult.nonFile)) ∧
    (createOrUpdateFile path content probe = UpsertOutcome.aborted ↔
      probe = GetContentResult.otherError) := by
  cases probe <;> simp [createOrUpdateFile]

/-- C8: polling with a state token that has no session in the store
always answers the structured 404 not-found response (authenticated
false) and leaves the store unchanged; pollStatus is a total function,
so no query can make it throw. -/
theorem claim_C8_unknown_state_not_found (st : SessionStore) (s : String) (now : Int)
    (h : mapGet st s = none) : pollStatus s now st = (PollResult.notFound, st) := by
  simp [pollStatus, h]

theorem claim_C8_unknown_state_not_found_witness :
    pollStatus "deadbeef" 12345 [] = (PollResult.notFound, []) :=
  claim_C8_unknown_state_not_found [] "deadbeef" 12345 rfl

/-- C7: when the callback's token exchange obtains no access token for
a known, still pending session, the handler renders the error page and
the session stays in the store unchanged - still pending, with no
credential; a poll within the TTL still answers pending, and a later
callback for the same state token that does obtain a token succeeds
and attaches it (the callback path never checks the TTL itself, so
retry works at least until the session is swept or expired). -/
theorem claim_C7_failed_callback_retry (st : SessionStore) (s : String) (sess : AuthSession)
    (hget : mapGet st s = some sess) (hpend : sess.token = none) :
    completeCallback s none st = (CallbackResult.errorPage, st) ∧
    (∀ now : Int, now - sess.timestamp ≤ TTL_MS →
      pollStatus s now st = (PollResult.pending, st)) ∧
    (∀ tok : String, completeCallback s (some tok) st =
      (CallbackResult.successPage, mapSet s ⟨sess.timestamp, some tok⟩ st)) := by
  refine ⟨?_, ?_, ?_⟩
  · simp [completeCallback, hget]
  · intro now hnow
    have hlt : ¬ TTL_MS < now - sess.timestamp := not_lt.mpr hnow
    simp [pollStatus, hget, hlt, hpend]
  · intro tok
    have : { sess with token := some tok } = (⟨sess.timestamp, some tok⟩ : AuthSession) := rfl
    simp [completeCallback, hget, this]

theorem claim_C7_failed_callback_retry_witness :
    completeCallback "s1" none [("s1", ⟨100, none⟩)] =
      (CallbackResult.errorPage, [("s1", ⟨100, none⟩)]) ∧
    (∀ now : Int, now - (100 : Int) ≤ TTL_MS →
      pollStatus "s1" now [("s1", ⟨100, none⟩)] = (PollResult.pending, [("s1", ⟨100, none⟩)])) ∧
    (∀ tok : String, completeCallback "s1" (some tok) [("s1", ⟨100, none⟩)] =
      (CallbackResult.successPage, mapSet "s1" ⟨100, some tok⟩ [("s1", ⟨100, none⟩)])) :=
  claim_C7_failed_callback_retry [("s1", ⟨100, none⟩)] "s1" ⟨100, none⟩ rfl rfl

theorem mem_of_mem_mapDelete (st : SessionStore) (k k' : String) (v : AuthSession)
    (h : (k, v) ∈ mapDelete k' st) : (k, v) ∈ st :=
  List.mem_of_mem_filter h

theorem pollStatus_snd (s : String) (now : Int) (st : SessionStore) :
    (pollStatus s now st).2 = st ∨ (pollStatus s now st).2 = mapDelete s st := by
  cases hg : mapGet st s with
  | none => left; simp [pollStatus, hg]
  | some sess =>
    by_cases hexp : TTL_MS < now - sess.timestamp
    · right; simp [pollStatus, hg, hexp]
    · left
      cases htok : sess.token with
      | none => simp [pollStatus, hg, hexp, htok]
      | some t => simp [pollStatus, hg, hexp, htok]

theorem runAuth_token_source (evts : List AuthEvent) :
    ∀ (st0 : SessionStore) (s tok : String) (sess : AuthSession),
    mapGet (runAuth st0 evts) s = some sess → sess.token = some tok →
    (∃ sess0, (s, sess0) ∈ st0 ∧ sess0.token = some tok) ∨
      AuthEvent.callback s (some tok) ∈ evts := by
  induction evts with
  | nil =>
    intro st0 s tok sess hget htok
    exact Or.inl ⟨sess, mapGet_mem _ _ _ hget, htok⟩
  | cons e rest ih =>
    intro st0 s tok sess hget htok
    have hget' : mapGet (runAuth (authStep st0 e) rest) s = some sess := by
      simpa [runAuth] using hget
    rcases ih (authStep st0 e) s tok sess hget' htok with ⟨sess1, hmem1, htok1⟩ | hcb
    · cases e with
      | init s' n =>
        have hmem2 : (s, sess1) ∈ mapSet s' ⟨n, none⟩ st0 := by
          have h3 : (s, sess1) ∈ cleanupAuthSessions n (mapSet s' ⟨n, none⟩ st0) := hmem1
          exact List.mem_of_mem_filter h3
        rcases mem_mapSet _ _ _ _ _ hmem2 with h2 | ⟨_, h2b⟩
        · exact Or.inl ⟨sess1, h2, htok1⟩
        · subst h2b
          simp at htok1
      | callback s' ex =>
        cases hg : mapGet st0 s' with
        | none =>
          refine Or.inl ⟨sess1, ?_, htok1⟩
          simpa [authStep, completeCallback, hg] using hmem1
        | some sessOld =>
          cases ex with
          | none =>
            refine Or.inl ⟨sess1, ?_, htok1⟩
            simpa [authStep, completeCallback, hg] using hmem1
          | some tk =>
            have hmem2 : (s, sess1) ∈ mapSet s' { sessOld with token := some tk } st0 := by
              simpa [authStep, completeCallback, hg] using hmem1
            rcases mem_mapSet _ _ _ _ _ hmem2 with h2 | ⟨h2a, h2b⟩
            · exact Or.inl ⟨sess1, h2, htok1⟩
            · subst h2a
              subst h2b
              simp at htok1
              subst htok1
              exact Or.inr (List.mem_cons_self _ _)
      | poll s' n =>
        rcases pollStatus_snd s' n st0 with hsnd | hsnd
        · refine Or.inl ⟨sess1, ?_, htok1⟩
          simpa [authStep, hsnd] using hmem1
        · refine Or.inl ⟨sess1, ?_, htok1⟩
          have hmem2 : (s, sess1) ∈ mapDelete s' st0 := by
            simpa [authStep, hsnd] using hmem1
          exact mem_of_mem_mapDelete _ _ _ _ hmem2
    · exact Or.inr (List.mem_cons_of_mem _ hcb)

theorem pollStatus_authorized_inv (s : String) (now : Int) (st : SessionStore) (tok : String)
    (h : (pollStatus s now st).1 = PollResult.authorized tok) :
    ∃ sess, mapGet st s = some sess ∧ sess.token = some tok := by
  cases hg : mapGet st s with
  | none => simp [pollStatus, hg] at h
  | some sess =>
    by_cases hexp : TTL_MS < now - sess.timestamp
    · simp [pollStatus, hg, hexp] at h
    · cases htok : sess.token with
      | none => simp [pollStatus, hg, hexp, htok] at h
      | some t =>
        simp [pollStatus, hg, hexp, htok] at h
        refine ⟨sess, rfl, ?_⟩
        rw [htok, h]

/-- C3: lifecycle of a session created by initiate. First, right
after initiate the store answers a poll with pending (no credential)
and does not change, for any poll age up to the TTL. Second, starting
from the empty store, a poll can only report authorized with a given
credential after a callback for that same state token successfully
attached exactly that credential. Third, a poll on a session whose
age strictly exceeds the ten-minute TTL answers expired and removes
the session from the store. -/
theorem claim_C3_session_lifecycle :
    (∀ (st : SessionStore) (s : String) (now now' : Int), now ≤ now' → now' - now ≤ TTL_MS →
      pollStatus s now' (initiate s now st) = (PollResult.pending, initiate s now st)) ∧
    (∀ (evts : List AuthEvent) (s tok : String) (now : Int),
      (pollStatus s now (runAuth [] evts)).1 = PollResult.authorized tok →
      AuthEvent.callback s (some tok) ∈ evts) ∧
    (∀ (st : SessionStore) (s : String) (sess : AuthSession) (now : Int),
      mapGet st s = some sess → TTL_MS < now - sess.timestamp →
      pollStatus s now st = (PollResult.expired, mapDelete s st) ∧
        mapGet (mapDelete s st) s = none) := by
  refine ⟨?_, ?_, ?_⟩
  · intro st s now now' hle hageLe
    have hkeep : (fun e : String × AuthSession =>
        !(decide (e.2.timestamp < now - TTL_MS))) (s, ⟨now, none⟩) = true := by
      simp [TTL_MS]
    have h1 : mapGet (initiate s now st) s = some ⟨now, none⟩ := by
      unfold initiate cleanupAuthSessions
      exact mapGet_filter_of_keep _ _ _ _ (mapGet_mapSet_self s ⟨now, none⟩ st) hkeep
    have hexp : ¬ TTL_MS < now' - (⟨now, none⟩ : AuthSession).timestamp := by
      simp
      omega
    simp [pollStatus, h1, hexp]
  · intro evts s tok now h
    obtain ⟨sess, hget, htok⟩ := pollStatus_authorized_inv s now (runAuth [] evts) tok h
    rcases runAuth_token_source evts [] s tok sess hget htok with ⟨sess0, hmem, _⟩ | hcb
    · simp at hmem
    · exact hcb
  · intro st s sess now hget hexp
    exact ⟨by simp [pollStatus, hget, hexp], mapGet_mapDelete_self s st⟩

theorem claim_C3_session_lifecycle_witness :
    pollStatus "s1" 0 (initiate "s1" 0 []) = (PollResult.pending, initiate "s1" 0 []) ∧
    AuthEvent.callback "s1" (some "tok") ∈
      [AuthEvent.init "s1" 0, AuthEvent.callback "s1" (some "tok"), AuthEvent.poll "s1" 1] ∧
    (pollStatus "s1" 600001 [("s1", ⟨0, none⟩)] =
      (PollResult.expired, mapDelete "s1" [("s1", ⟨0, none⟩)]) ∧
      mapGet (mapDelete "s1" [("s1", ⟨0, none⟩)]) "s1" = none) :=
  ⟨claim_C3_session_lifecycle.1 [] "s1" 0 0 (by decide) (by decide),
   claim_C3_session_lifecycle.2.1
     [AuthEvent.init "s1" 0, AuthEvent.callback "s1" (some "tok"), AuthEvent.poll "s1" 1]
     "s1" "tok" 1 (by decide),
   claim_C3_session_lifecycle.2.2 [("s1", ⟨0, none⟩)] "s1" ⟨0, none⟩ 600001 rfl (by decide)⟩

/-- C1 is violated by the code: createFiles writes README.md at the
end of every invocation, and the recursive call for a subdirectory is
an invocation, so any tree containing a directory node receives one
README write per directory visited in addition to the final one -
and a README write can precede later content writes. On a tree with
two leaf files, one of them inside a subdirectory that is not the last
entry, the full no-failure trace has two README writes (not one) and
the first of them occurs before the second content write (so the
claim's single strictly-last README write does not exist). The spec's
stated ordering (all generated files, then one final README) is the
evident intent; the slip is that the per-invocation README write is
inside the recursion. -/
theorem claim_C1_readme_per_directory :
    (exportRun noFail
        [("src", FSNode.dir [("a.txt", FSNode.file "x")]), ("b.txt", FSNode.file "y")]).writes =
      [WriteCall.content "src/a.txt" "x", WriteCall.readme,
       WriteCall.content "b.txt" "y", WriteCall.readme] ∧
    readmeCount (exportRun noFail
        [("src", FSNode.dir [("a.txt", FSNode.file "x")]), ("b.txt", FSNode.file "y")]).writes = 2 := by
  have h : (exportRun noFail
      [("src", FSNode.dir [("a.txt", FSNode.file "x")]), ("b.txt", FSNode.file "y")]).writes =
      [WriteCall.content "src/a.txt" "x", WriteCall.readme,
       WriteCall.content "b.txt" "y", WriteCall.readme] := by
    simp [exportRun, createFiles, createFilesLoop, attemptWrite, noFail]
  refine ⟨h, ?_⟩
  rw [h]
  decide

theorem assocLookup_objInsert_self (k : String) (v : FSNode) (es : Entries) :
    assocLookup (objInsert k v es) k = some v := by
  induction es with
  | nil => simp [objInsert, assocLookup]
  | cons e rest ih =>
    obtain ⟨k', v'⟩ := e
    by_cases h : k' = k
    · simp [objInsert, assocLookup, h]
    · simp [objInsert, assocLookup, h, ih]

theorem assocLookup_objInsert_ne (k k' : String) (v : FSNode) (es : Entries)
    (h : k' ≠ k) : assocLookup (objInsert k' v es) k = assocLookup es k := by
  induction es with
  | nil => simp [objInsert, assocLookup, h]
  | cons e rest ih =>
    obtain ⟨k'', v''⟩ := e
    by_cases h2 : k'' = k'
    · subst h2
      simp [objInsert, assocLookup, h]
    · simp [objInsert, assocLookup, h2, ih]

theorem objInsert_eq_of_lookup (k : String) (v : FSNode) (es : Entries)
    (h : assocLookup es k = some v) : objInsert k v es = es := by
  induction es with
  | nil => simp [assocLookup] at h
  | cons e rest ih =>
    obtain ⟨k', v'⟩ := e
    by_cases h2 : k' = k
    · subst h2
      simp [assocLookup] at h
      simp [objInsert, h]
    · simp [assocLookup, h2] at h
      simp [objInsert, h2, ih h]

theorem entryKeys_cons (k : String) (v : FSNode) (rest : Entries) :
    entryKeys ((k, v) :: rest) = k :: entryKeys rest := rfl

theorem entryKeys_objInsert_mem (k : String) (v : FSNode) (es : Entries)
    (h : k ∈ entryKeys es) : entryKeys (objInsert k v es) = entryKeys es := by
  induction es with
  | nil => simp [entryKeys] at h
  | cons e rest ih =>
    obtain ⟨k', v'⟩ := e
    by_cases h2 : k' = k
    · simp [objInsert, entryKeys, h2]
    · rw [entryKeys_cons] at h
      rcases List.mem_cons.mp h with heq | hmem
      · exact absurd heq.symm h2
      · have hobj : objInsert k v ((k', v') :: rest) = (k', v') :: objInsert k v rest := by
          simp [objInsert, h2]
        rw [hobj, entryKeys_cons, entryKeys_cons, ih hmem]

theorem assocLookup_mergeEntries_not_mem (d : Entries) (fs : List (String × String)) (k : String)
    (h : k ∉ fs.map Prod.fst) : assocLookup (mergeEntries d fs) k = assocLookup d k := by
  induction fs generalizing d with
  | nil => simp [mergeEntries]
  | cons fc rest ih =>
    obtain ⟨f, c⟩ := fc
    have hmap : List.map Prod.fst ((f, c) :: rest) = f :: List.map Prod.fst rest := rfl
    rw [hmap] at h
    have hne : f ≠ k := fun heq => h (heq ▸ List.mem_cons_self _ _)
    have hrest : k ∉ rest.map Prod.fst := fun hk => h (List.mem_cons_of_mem _ hk)
    rw [mergeEntries, ih _ hrest, assocLookup_objInsert_ne _ _ _ _ hne]

theorem assocLookup_mergeEntries_mem (d : Entries) (fs : List (String × String))
    (f : String) (c : String) (hnd : (fs.map Prod.fst).Nodup) (hmem : (f, c) ∈ fs) :
    assocLookup (mergeEntries d fs) f = some (FSNode.file c) := by
  induction fs generalizing d with
  | nil => simp at hmem
  | cons fc rest ih =>
    obtain ⟨f', c'⟩ := fc
    have hmap : List.map Prod.fst ((f', c') :: rest) = f' :: List.map Prod.fst rest := rfl
    rw [hmap] at hnd
    obtain ⟨hnotin, hnd'⟩ := List.nodup_cons.mp hnd
    rcases List.mem_cons.mp hmem with heq | hmem'
    · have hf : f = f' := congrArg Prod.fst heq
      have hc : c = c' := congrArg Prod.snd heq
      subst hf
      subst hc
      rw [mergeEntries, assocLookup_mergeEntries_not_mem _ _ _ hnotin,
        assocLookup_objInsert_self]
    · rw [mergeEntries]
      exact ih _ hnd' hmem'

theorem assocLookup_mergeEntries_key (d : Entries) (fs : List (String × String)) (f : String)
    (h : f ∈ fs.map Prod.fst) :
    ∃ c, assocLookup (mergeEntries d fs) f = some (FSNode.file c) := by
  induction fs generalizing d with
  | nil => simp at h
  | cons fc rest ih =>
    obtain ⟨f', c'⟩ := fc
    by_cases hmem : f ∈ rest.map Prod.fst
    · rw [mergeEntries]
      exact ih _ hmem
    · have hmap : List.map Prod.fst ((f', c') :: rest) = f' :: List.map Prod.fst rest := rfl
      rw [hmap] at h
      rcases List.mem_cons.mp h with heq | hm
      · subst heq
        rw [mergeEntries]
        exact ⟨c', by rw [assocLookup_mergeEntries_not_mem _ _ _ hmem, assocLookup_objInsert_self]⟩
      · exact absurd hm hmem

theorem lookupPath_one (es : Entries) (k : String) :
    lookupPath es [k] = assocLookup es k := rfl

theorem lookupPath_pair (es : Entries) (k q : String) (qs : List String) :
    lookupPath es (k :: q :: qs) =
      match assocLookup es k with
      | some (FSNode.dir sub) => lookupPath sub (q :: qs)
      | _ => none := rfl

theorem lookupPath_head_congr (es1 es2 : Entries) (q : String) (qs : List String)
    (h : assocLookup es1 q = assocLookup es2 q) :
    lookupPath es1 (q :: qs) = lookupPath es2 (q :: qs) := by
  cases qs with
  | nil => rw [lookupPath_one, lookupPath_one, h]
  | cons q' qs' => rw [lookupPath_pair, lookupPath_pair, h]

theorem lookupPath_append_dir (path : List String) :
    ∀ (es d : Entries) (f : String),
    lookupPath es path = some (FSNode.dir d) →
    lookupPath es (path ++ [f]) = assocLookup d f := by
  induction path with
  | nil =>
    intro es d f h
    simp [lookupPath] at h
  | cons p ps ih =>
    intro es d f h
    cases ps with
    | nil =>
      have h' : assocLookup es p = some (FSNode.dir d) := h
      rw [List.cons_append, List.nil_append, lookupPath_pair, h']
      rfl
    | cons q qs =>
      rw [lookupPath_pair] at h
      split at h
      · rename_i sub heq
        rw [List.cons_append, List.cons_append, lookupPath_pair, heq]
        exact ih sub d f h
      · exact absurd h (by simp)

/-- Two paths separate at some position: either their heads already
differ, or the heads agree and the tails separate. A lookup along a
path that diverges from the path of an assignment is unaffected. -/
inductive PathDiverges : List String → List String → Prop where
  | head {x y : String} (xs ys : List String) (h : x ≠ y) : PathDiverges (x :: xs) (y :: ys)
  | tail {x : String} {xs ys : List String} (h : PathDiverges xs ys) : PathDiverges (x :: xs) (x :: ys)

theorem setIn_nil (es : Entries) (k : String) (v : FSNode) :
    setIn es [] k v = some (objInsert k v es) := rfl

theorem setIn_cons (es : Entries) (p : String) (ps : List String) (k : String) (v : FSNode) :
    setIn es (p :: ps) k v =
      match assocLookup es p with
      | some (FSNode.dir sub) =>
        (setIn sub ps k v).map (fun sub' => objInsert p (FSNode.dir sub') es)
      | _ => none := rfl

theorem lookupPath_setIn_diverges (path : List String) :
    ∀ (es es' : Entries) (k : String) (v : FSNode) (qs : List String),
    setIn es path k v = some es' → PathDiverges qs (path ++ [k]) →
    lookupPath es' qs = lookupPath es qs := by
  induction path with
  | nil =>
    intro es es' k v qs hset hdiv
    rw [setIn_nil] at hset
    have hes : es' = objInsert k v es := by
      injection hset with h
      exact h.symm
    subst hes
    cases hdiv with
    | head xs ys hne =>
      exact lookupPath_head_congr _ _ _ _ (assocLookup_objInsert_ne _ _ _ _ (Ne.symm hne))
    | tail h' => cases h'
  | cons p ps ih =>
    intro es es' k v qs hset hdiv
    rw [setIn_cons] at hset
    cases hl : assocLookup es p with
    | none => rw [hl] at hset; simp at hset
    | some node =>
      cases node with
      | file c => rw [hl] at hset; simp at hset
      | dir sub =>
        rw [hl] at hset
        simp only [Option.map_eq_some'] at hset
        obtain ⟨sub', hsub, hes⟩ := hset
        subst hes
        cases hdiv with
        | head xs ys hne =>
          exact lookupPath_head_congr _ _ _ _ (assocLookup_objInsert_ne _ _ _ _ (Ne.symm hne))
        | tail hdiv' =>
          rename_i qs'
          cases qs' with
          | nil => cases hdiv'
          | cons q2 qs2 =>
            rw [lookupPath_pair, lookupPath_pair, assocLookup_objInsert_self, hl]
            exact ih sub sub' k v (q2 :: qs2) hsub hdiv'

theorem setIn_dir (path : List String) :
    ∀ (es d : Entries) (k : String) (v : FSNode),
    lookupPath es path = some (FSNode.dir d) →
    ∃ es', setIn es path k v = some es' ∧
      lookupPath es' path = some (FSNode.dir (objInsert k v d)) := by
  induction path with
  | nil =>
    intro es d k v h
    simp [lookupPath] at h
  | cons p ps ih =>
    intro es d k v h
    cases ps with
    | nil =>
      have h' : assocLookup es p = some (FSNode.dir d) := h
      refine ⟨objInsert p (FSNode.dir (objInsert k v d)) es, ?_, ?_⟩
      · rw [setIn_cons, h']
        rfl
      · rw [lookupPath_one, assocLookup_objInsert_self]
    | cons q qs =>
      rw [lookupPath_pair] at h
      split at h
      · rename_i sub heq
        obtain ⟨sub', hs1, hs2⟩ := ih sub d k v h
        refine ⟨objInsert p (FSNode.dir sub') es, ?_, ?_⟩
        · rw [setIn_cons, heq]
          show Option.map _ (setIn sub (q :: qs) k v) = _
          rw [hs1]
          rfl
        · rw [lookupPath_pair, assocLookup_objInsert_self]
          exact hs2
      · exact absurd h (by simp)

theorem setIn_id (path : List String) :
    ∀ (es : Entries) (k : String) (v : FSNode),
    lookupPath es (path ++ [k]) = some v → setIn es path k v = some es := by
  induction path with
  | nil =>
    intro es k v h
    rw [List.nil_append, lookupPath_one] at h
    rw [setIn_nil, objInsert_eq_of_lookup _ _ _ h]
  | cons p ps ih =>
    intro es k v h
    cases hcons : ps ++ [k] with
    | nil => exact absurd hcons (by simp)
    | cons q qs =>
      rw [List.cons_append, hcons, lookupPath_pair] at h
      split at h
      · rename_i sub heq
        rw [← hcons] at h
        have hsub := ih sub k v h
        rw [setIn_cons, heq]
        show Option.map _ (setIn sub ps k v) = _
        rw [hsub]
        simp [objInsert_eq_of_lookup _ _ _ heq]
      · exact absurd h (by simp)

theorem mergeSection_dir (path : List String) (fs : List (String × String)) :
    ∀ (es d : Entries), lookupPath es path = some (FSNode.dir d) →
    ∃ es', mergeSection path fs es = some es' ∧
      lookupPath es' path = some (FSNode.dir (mergeEntries d fs)) := by
  induction fs with
  | nil =>
    intro es d h
    exact ⟨es, rfl, by rw [mergeEntries]; exact h⟩
  | cons fc rest ih =>
    intro es d h
    obtain ⟨f, c⟩ := fc
    obtain ⟨es1, hs1, hl1⟩ := setIn_dir path es d f (FSNode.file c) h
    obtain ⟨es2, hs2, hl2⟩ := ih es1 (objInsert f (FSNode.file c) d) hl1
    refine ⟨es2, ?_, ?_⟩
    · rw [mergeSection, hs1]
      exact hs2
    · rw [mergeEntries]
      exact hl2

theorem mergeSection_diverges (fs : List (String × String)) :
    ∀ (path qs : List String) (es es' : Entries),
    mergeSection path fs es = some es' →
    (∀ f ∈ fs.map Prod.fst, PathDiverges qs (path ++ [f])) →
    lookupPath es' qs = lookupPath es qs := by
  induction fs with
  | nil =>
    intro path qs es es' h _
    rw [mergeSection] at h
    injection h with h
    rw [h]
  | cons fc rest ih =>
    intro path qs es es' h hdiv
    obtain ⟨f, c⟩ := fc
    rw [mergeSection] at h
    cases hset : setIn es path f (FSNode.file c) with
    | none => rw [hset] at h; simp at h
    | some es1 =>
      rw [hset] at h
      have hrest : lookupPath es' qs = lookupPath es1 qs :=
        ih path qs es1 es' h (fun g hg => hdiv g (List.mem_cons_of_mem _ hg))
      have hstep : lookupPath es1 qs = lookupPath es qs :=
        lookupPath_setIn_diverges path es es1 f (FSNode.file c) qs hset
          (hdiv f (List.mem_cons_self _ _))
      rw [hrest, hstep]

theorem mergeSection_id (path : List String) (fs : List (String × String)) :
    ∀ es : Entries,
    (∀ fc ∈ fs, lookupPath es (path ++ [fc.1]) = some (FSNode.file fc.2)) →
    mergeSection path fs es = some es := by
  induction fs with
  | nil => intro es _; rfl
  | cons fc rest ih =>
    intro es h
    obtain ⟨f, c⟩ := fc
    have h1 := h (f, c) (List.mem_cons_self _ _)
    have hset := setIn_id path es f (FSNode.file c) h1
    rw [mergeSection, hset]
    exact ih es (fun fc' hm => h fc' (List.mem_cons_of_mem _ hm))

theorem buildFrom_norm (p : GeneratedApp) (es : Entries) :
    buildAppHierarchyFrom p es =
      (mergeSection ["src", "components"] (p.components.getD []) es).bind fun s1 =>
      (mergeSection ["src", "styles"] (p.styles.getD []) s1).bind fun s2 =>
      mergeSection ["src"] (p.pages.getD []) s2 := by
  obtain ⟨cs, ss, ps⟩ := p
  cases cs <;> cases ss <;> cases ps <;> simp [buildAppHierarchyFrom, mergeSection]

/-- Full characterization of the tree produced by buildAppHierarchy:
it always succeeds; the src directory is the skeleton's src with the
components payload merged into its components subdirectory, the styles
payload merged into its styles subdirectory, and the pages payload
then merged directly into it; every root entry other than src is
exactly the skeleton's. D2 is the src directory before the pages loop
runs. -/
theorem build_char (p : GeneratedApp) :
    ∃ t D2, buildAppHierarchy p = some t ∧
      assocLookup D2 "components" = some (FSNode.dir (mergeEntries [] (p.components.getD []))) ∧
      assocLookup D2 "styles" = some (FSNode.dir (mergeEntries [] (p.styles.getD []))) ∧
      (∀ g, g ≠ "components" → g ≠ "styles" → assocLookup D2 g = none) ∧
      lookupPath t ["src"] = some (FSNode.dir (mergeEntries D2 (p.pages.getD []))) ∧
      (∀ q, q ≠ "src" → assocLookup t q = assocLookup getAppSchema q) := by
  have h0c : lookupPath getAppSchema ["src", "components"] = some (FSNode.dir []) := by rfl
  have h0s : lookupPath getAppSchema ["src", "styles"] = some (FSNode.dir []) := by rfl
  obtain ⟨s1, hm1, hl1⟩ :=
    mergeSection_dir ["src", "components"] (p.components.getD []) getAppSchema [] h0c
  have hl1s : lookupPath s1 ["src", "styles"] = some (FSNode.dir []) := by
    rw [mergeSection_diverges (p.components.getD []) ["src", "components"]
      ["src", "styles"] getAppSchema s1 hm1
      (fun f _ => PathDiverges.tail (PathDiverges.head _ _ (by decide)))]
    exact h0s
  obtain ⟨s2, hm2, hl2⟩ :=
    mergeSection_dir ["src", "styles"] (p.styles.getD []) s1 [] hl1s
  have hl2c : lookupPath s2 ["src", "components"] =
      some (FSNode.dir (mergeEntries [] (p.components.getD []))) := by
    rw [mergeSection_diverges (p.styles.getD []) ["src", "styles"]
      ["src", "components"] s1 s2 hm2
      (fun f _ => PathDiverges.tail (PathDiverges.head _ _ (by decide)))]
    exact hl1
  rw [lookupPath_pair] at hl2c
  split at hl2c
  case h_2 => exact absurd hl2c (by simp)
  rename_i D2 heqsrc
  have hD2c : assocLookup D2 "components" =
      some (FSNode.dir (mergeEntries [] (p.components.getD []))) := hl2c
  have hD2s : assocLookup D2 "styles" =
      some (FSNode.dir (mergeEntries [] (p.styles.getD []))) := by
    have h2 := hl2
    rw [lookupPath_pair, heqsrc] at h2
    exact h2
  have hD2none : ∀ g, g ≠ "components" → g ≠ "styles" → assocLookup D2 g = none := by
    intro g hg1 hg2
    have hskel : lookupPath getAppSchema ["src", g] = none := by
      have hentries : assocLookup [("components", FSNode.dir []), ("styles", FSNode.dir [])] g = none := by
        simp [assocLookup, Ne.symm hg1, Ne.symm hg2]
      show (match assocLookup getAppSchema "src" with
        | some (FSNode.dir sub) => lookupPath sub [g]
        | _ => none) = none
      rw [show assocLookup getAppSchema "src" =
        some (FSNode.dir [("components", FSNode.dir []), ("styles", FSNode.dir [])]) from rfl]
      show lookupPath [("components", FSNode.dir []), ("styles", FSNode.dir [])] [g] = none
      rw [lookupPath_one]
      exact hentries
    have hstep1 : lookupPath s1 ["src", g] = none := by
      rw [mergeSection_diverges (p.components.getD []) ["src", "components"]
        ["src", g] getAppSchema s1 hm1
        (fun f _ => PathDiverges.tail (PathDiverges.head _ _ hg1))]
      exact hskel
    have hstep2 : lookupPath s2 ["src", g] = none := by
      rw [mergeSection_diverges (p.styles.getD []) ["src", "styles"]
        ["src", g] s1 s2 hm2
        (fun f _ => PathDiverges.tail (PathDiverges.head _ _ hg2))]
      exact hstep1
    rw [lookupPath_pair, heqsrc] at hstep2
    exact hstep2
  have hsrc2 : lookupPath s2 ["src"] = some (FSNode.dir D2) := by
    rw [lookupPath_one]
    exact heqsrc
  obtain ⟨t, hm3, hl3⟩ := mergeSection_dir ["src"] (p.pages.getD []) s2 D2 hsrc2
  refine ⟨t, D2, ?_, hD2c, hD2s, hD2none, hl3, ?_⟩
  · rw [buildAppHierarchy, buildFrom_norm, hm1]
    show (mergeSection ["src", "styles"] (p.styles.getD []) s1).bind _ = some t
    rw [hm2]
    show mergeSection ["src"] (p.pages.getD []) s2 = some t
    exact hm3
  · intro q hq
    have h1 : lookupPath t [q] = lookupPath s2 [q] :=
      mergeSection_diverges (p.pages.getD []) ["src"] [q] s2 t hm3
        (fun f _ => PathDiverges.head _ _ hq)
    have h2 : lookupPath s2 [q] = lookupPath s1 [q] :=
      mergeSection_diverges (p.styles.getD []) ["src", "styles"] [q] s1 s2 hm2
        (fun f _ => PathDiverges.head _ _ hq)
    have h3 : lookupPath s1 [q] = lookupPath getAppSchema [q] :=
      mergeSection_diverges (p.components.getD []) ["src", "components"] [q] getAppSchema s1 hm1
        (fun f _ => PathDiverges.head _ _ hq)
    rw [lookupPath_one, lookupPath_one] at h1 h2 h3
    rw [← lookupPath_one, lookupPath_one] at h1
    calc assocLookup t q = assocLookup s2 q := h1
      _ = assocLookup s1 q := h2
      _ = assocLookup getAppSchema q := h3

theorem build_contents (p : GeneratedApp) (t : Entries)
    (hndc : ((p.components.getD []).map Prod.fst).Nodup)
    (hnds : ((p.styles.getD []).map Prod.fst).Nodup)
    (hndp : ((p.pages.getD []).map Prod.fst).Nodup)
    (hpz : ∀ f ∈ (p.pages.getD []).map Prod.fst, f ≠ "components" ∧ f ≠ "styles")
    (ht : buildAppHierarchy p = some t) :
    (∀ fc ∈ p.components.getD [], lookupPath t ["src", "components", fc.1] = some (FSNode.file fc.2)) ∧
    (∀ fc ∈ p.styles.getD [], lookupPath t ["src", "styles", fc.1] = some (FSNode.file fc.2)) ∧
    (∀ fc ∈ p.pages.getD [], lookupPath t ["src", fc.1] = some (FSNode.file fc.2)) ∧
    (∀ q, q ≠ "src" → assocLookup t q = assocLookup getAppSchema q) := by
  obtain ⟨t', D2, ht', hD2c, hD2s, hD2none, hsrc, hroot⟩ := build_char p
  rw [ht] at ht'
  injection ht' with ht''
  subst ht''
  have hcompnp : "components" ∉ (p.pages.getD []).map Prod.fst :=
    fun hin => ((hpz _ hin).1) rfl
  have hstynp : "styles" ∉ (p.pages.getD []).map Prod.fst :=
    fun hin => ((hpz _ hin).2) rfl
  have hMc : lookupPath t ["src", "components"] =
      some (FSNode.dir (mergeEntries [] (p.components.getD []))) := by
    have h1 := lookupPath_append_dir ["src"] t (mergeEntries D2 (p.pages.getD [])) "components" hsrc
    rw [assocLookup_mergeEntries_not_mem _ _ _ hcompnp, hD2c] at h1
    exact h1
  have hMs : lookupPath t ["src", "styles"] =
      some (FSNode.dir (mergeEntries [] (p.styles.getD []))) := by
    have h1 := lookupPath_append_dir ["src"] t (mergeEntries D2 (p.pages.getD [])) "styles" hsrc
    rw [assocLookup_mergeEntries_not_mem _ _ _ hstynp, hD2s] at h1
    exact h1
  refine ⟨?_, ?_, ?_, hroot⟩
  · intro fc hfc
    have h2 := lookupPath_append_dir ["src", "components"] t _ fc.1 hMc
    rw [assocLookup_mergeEntries_mem [] _ fc.1 fc.2 hndc (by rw [Prod.mk.eta]; exact hfc)] at h2
    exact h2
  · intro fc hfc
    have h2 := lookupPath_append_dir ["src", "styles"] t _ fc.1 hMs
    rw [assocLookup_mergeEntries_mem [] _ fc.1 fc.2 hnds (by rw [Prod.mk.eta]; exact hfc)] at h2
    exact h2
  · intro fc hfc
    have h2 := lookupPath_append_dir ["src"] t _ fc.1 hsrc
    rw [assocLookup_mergeEntries_mem D2 _ fc.1 fc.2 hndp (by rw [Prod.mk.eta]; exact hfc)] at h2
    exact h2

/-- C9: merging never errors - for every payload, including ones with
missing (falsy) sections, buildAppHierarchy returns a tree; and a
missing section is simply skipped: the result is exactly the result
for the payload in which that section is replaced by the empty
mapping, so whichever sections are present are merged. -/
theorem claim_C9_missing_sections_skipped :
    (∀ p : GeneratedApp, ∃ t, buildAppHierarchy p = some t) ∧
    (∀ p : GeneratedApp, buildAppHierarchy p =
      buildAppHierarchy
        ⟨some (p.components.getD []), some (p.styles.getD []), some (p.pages.getD [])⟩) := by
  constructor
  · intro p
    obtain ⟨t, D2, ht, _⟩ := build_char p
    exact ⟨t, ht⟩
  · intro p
    rw [buildAppHierarchy, buildAppHierarchy, buildFrom_norm, buildFrom_norm]
    rfl

/-- C4 as stated is false; this is the amended form. Hypotheses: the
payload sections are mappings (their key lists have no duplicates, as
for every JS object), and - the amendment forced by the
counterexample - no pages filename is named components or styles
(such a page replaces the corresponding subdirectory at the src root,
so a second merge crashes or loses files). Under these hypotheses,
re-running the three merge loops of buildAppHierarchy on the tree
they produced changes nothing, and re-merging an already present
filename into a directory replaces the binding in place: the looked-up
content is the new one and the key list is unchanged (no duplicate
entry). -/
theorem claim_C4_merge_idempotent_amended (p : GeneratedApp) (t : Entries)
    (hndc : ((p.components.getD []).map Prod.fst).Nodup)
    (hnds : ((p.styles.getD []).map Prod.fst).Nodup)
    (hndp : ((p.pages.getD []).map Prod.fst).Nodup)
    (hpz : ∀ f ∈ (p.pages.getD []).map Prod.fst, f ≠ "components" ∧ f ≠ "styles")
    (ht : buildAppHierarchy p = some t) :
    buildAppHierarchyFrom p t = some t ∧
    (∀ (d : Entries) (k : String) (v : FSNode), k ∈ entryKeys d →
      assocLookup (objInsert k v d) k = some v ∧ entryKeys (objInsert k v d) = entryKeys d) := by
  obtain ⟨hcs, hss, hps, _⟩ := build_contents p t hndc hnds hndp hpz ht
  constructor
  · rw [buildFrom_norm p t]
    rw [mergeSection_id ["src", "components"] (p.components.getD []) t hcs]
    show (mergeSection ["src", "styles"] (p.styles.getD []) t).bind _ = some t
    rw [mergeSection_id ["src", "styles"] (p.styles.getD []) t hss]
    show mergeSection ["src"] (p.pages.getD []) t = some t
    exact mergeSection_id ["src"] (p.pages.getD []) t hps
  · intro d k v hk
    exact ⟨assocLookup_objInsert_self k v d, entryKeys_objInsert_mem k v d hk⟩

/-- The payload of the C4 counterexample: one component file and a
page whose filename is components. -/
def clobberPayload : GeneratedApp :=
  ⟨some [("A.jsx", "a")], none, some [("components", "p")]⟩

/-- The tree buildAppHierarchy produces for clobberPayload: the pages
loop has replaced the components subdirectory (and the A.jsx file
inside it) with a file leaf. -/
def clobberTree : Entries :=
  [("package.json", FSNode.file packageJsonContents),
   ("vite.config.js", FSNode.file viteConfigContents),
   ("index.html", FSNode.file indexHtmlContents),
   ("src", FSNode.dir [("components", FSNode.file "p"), ("styles", FSNode.dir [])])]

/-- C4 counterexample: for clobberPayload, the first merge succeeds
(producing clobberTree, with src.components now a file leaf), but
running the same merge a second time on that tree fails: the
components loop dereferences src.directory.components.directory,
which no longer exists, so merging twice does not yield the same tree
as merging once - it does not yield a tree at all. -/
theorem claim_C4_counterexample :
    buildAppHierarchy clobberPayload = some clobberTree ∧
    buildAppHierarchyFrom clobberPayload clobberTree = none ∧
    buildAppHierarchyFrom clobberPayload clobberTree ≠ some clobberTree := by
  refine ⟨rfl, rfl, ?_⟩
  intro h
  rw [show buildAppHierarchyFrom clobberPayload clobberTree = none from rfl] at h
  exact Option.noConfusion h

/-- A sample payload and its merged tree, used as concrete instances. -/
def sampleTree : Entries :=
  [("package.json", FSNode.file packageJsonContents),
   ("vite.config.js", FSNode.file viteConfigContents),
   ("index.html", FSNode.file indexHtmlContents),
   ("src", FSNode.dir
     [("components", FSNode.dir [("A.jsx", FSNode.file "a")]),
      ("styles", FSNode.dir [])])]

theorem claim_C4_merge_idempotent_amended_witness :
    buildAppHierarchyFrom ⟨some [("A.jsx", "a")], some [], some []⟩ sampleTree =
      some sampleTree :=
  (claim_C4_merge_idempotent_amended ⟨some [("A.jsx", "a")], some [], some []⟩ sampleTree
    (by decide) (by decide) (by decide) (by decide) rfl).1

/-- C5 as stated is false (pairwise disjointness of the three filename
sets does not stop a page named components or styles from replacing
that subdirectory); this is the amended form, additionally requiring
that no pages filename is named components or styles. Then each
components entry sits under src/components, each styles entry under
src/styles, each pages entry directly under src, and the three
root-level skeleton files keep their original contents. The Nodup
hypotheses state that the sections are mappings (JS object keys are
unique); the disjointness hypotheses are those of the claim. -/
theorem claim_C5_sections_placed_amended (p : GeneratedApp)
    (cs ss ps : List (String × String)) (t : Entries)
    (hc : p.components = some cs) (hs : p.styles = some ss) (hp : p.pages = some ps)
    (hndc : (cs.map Prod.fst).Nodup) (hnds : (ss.map Prod.fst).Nodup)
    (hndp : (ps.map Prod.fst).Nodup)
    (hdisj1 : ∀ f ∈ cs.map Prod.fst, f ∉ ss.map Prod.fst)
    (hdisj2 : ∀ f ∈ cs.map Prod.fst, f ∉ ps.map Prod.fst)
    (hdisj3 : ∀ f ∈ ss.map Prod.fst, f ∉ ps.map Prod.fst)
    (hpz : ∀ f ∈ ps.map Prod.fst, f ≠ "components" ∧ f ≠ "styles")
    (ht : buildAppHierarchy p = some t) :
    (∀ fc ∈ cs, lookupPath t ["src", "components", fc.1] = some (FSNode.file fc.2)) ∧
    (∀ fc ∈ ss, lookupPath t ["src", "styles", fc.1] = some (FSNode.file fc.2)) ∧
    (∀ fc ∈ ps, lookupPath t ["src", fc.1] = some (FSNode.file fc.2)) ∧
    assocLookup t "package.json" = some (FSNode.file packageJsonContents) ∧
    assocLookup t "vite.config.js" = some (FSNode.file viteConfigContents) ∧
    assocLookup t "index.html" = some (FSNode.file indexHtmlContents) := by
  have hgd1 : p.components.getD [] = cs := by rw [hc]; rfl
  have hgd2 : p.styles.getD [] = ss := by rw [hs]; rfl
  have hgd3 : p.pages.getD [] = ps := by rw [hp]; rfl
  obtain ⟨h1, h2, h3, hroot⟩ := build_contents p t
    (by rw [hgd1]; exact hndc) (by rw [hgd2]; exact hnds) (by rw [hgd3]; exact hndp)
    (by rw [hgd3]; exact hpz) ht
  rw [hgd1] at h1
  rw [hgd2] at h2
  rw [hgd3] at h3
  refine ⟨h1, h2, h3, ?_, ?_, ?_⟩
  · rw [hroot "package.json" (by decide)]
    rfl
  · rw [hroot "vite.config.js" (by decide)]
    rfl
  · rw [hroot "index.html" (by decide)]
    rfl

/-- C5 counterexample: the payload with components B.jsx, empty
styles, and a single page named components has pairwise disjoint
filename sets, yet after the merge the components entry B.jsx is not
under the components subtree (the pages loop replaced the whole
components subdirectory with a file), so the claim as stated fails. -/
theorem claim_C5_counterexample :
    ("B.jsx" : String) ≠ "components" ∧
    buildAppHierarchy ⟨some [("B.jsx", "b")], some [], some [("components", "p")]⟩ =
      some clobberTree ∧
    lookupPath clobberTree ["src", "components", "B.jsx"] = none ∧
    ∀ c : String, lookupPath clobberTree ["src", "components", "B.jsx"] ≠
      some (FSNode.file c) := by
  refine ⟨by decide, rfl, rfl, ?_⟩
  intro c h
  rw [show lookupPath clobberTree ["src", "components", "B.jsx"] = none from rfl] at h
  exact Option.noConfusion h

/-- The merged tree for the spec's concrete scenario payload. -/
def scenarioTree : Entries :=
  [("package.json", FSNode.file packageJsonContents),
   ("vite.config.js", FSNode.file viteConfigContents),
   ("index.html", FSNode.file indexHtmlContents),
   ("src", FSNode.dir
     [("components", FSNode.dir [("Nav.jsx", FSNode.file "n")]),
      ("styles", FSNode.dir [("index.css", FSNode.file "c")]),
      ("main.jsx", FSNode.file "m")])]

theorem claim_C5_sections_placed_amended_witness :
    lookupPath scenarioTree ["src", "components", "Nav.jsx"] = some (FSNode.file "n") ∧
    lookupPath scenarioTree ["src", "styles", "index.css"] = some (FSNode.file "c") ∧
    lookupPath scenarioTree ["src", "main.jsx"] = some (FSNode.file "m") ∧
    assocLookup scenarioTree "package.json" = some (FSNode.file packageJsonContents) ∧
    assocLookup scenarioTree "vite.config.js" = some (FSNode.file viteConfigContents) ∧
    assocLookup scenarioTree "index.html" = some (FSNode.file indexHtmlContents) := by
  have H := claim_C5_sections_placed_amended
    ⟨some [("Nav.jsx", "n")], some [("index.css", "c")], some [("main.jsx", "m")]⟩
    [("Nav.jsx", "n")] [("index.css", "c")] [("main.jsx", "m")] scenarioTree
    rfl rfl rfl (by decide) (by decide) (by decide) (by decide) (by decide) (by decide)
    (by decide) rfl
  exact ⟨H.1 ("Nav.jsx", "n") (by decide), H.2.1 ("index.css", "c") (by decide),
    H.2.2.1 ("main.jsx", "m") (by decide),
    H.2.2.2.1, H.2.2.2.2.1, H.2.2.2.2.2⟩

/-- C10: the project state installed by an upload depends only on the
generated payload - the handler computes buildAppHierarchy(payload)
starting from a fresh skeleton and never reads the previous tree - so
two uploads with identical payloads install identical trees whatever
state earlier uploads left behind. Moreover a file merged by an
earlier upload never survives into the new tree: any name outside the
new payload's pages (and not a reserved subtree name) is absent
directly under src, and any name outside the new payload's components
is absent under src/components. -/
theorem claim_C10_state_independent_rebuild :
    (∀ (p : GeneratedApp) (s1 s2 : Entries), uploadStep p s1 = uploadStep p s2) ∧
    (∀ (p : GeneratedApp) (t : Entries) (g : String),
      buildAppHierarchy p = some t →
      g ∉ (p.pages.getD []).map Prod.fst → g ≠ "components" → g ≠ "styles" →
      lookupPath t ["src", g] = none) ∧
    (∀ (p : GeneratedApp) (t : Entries) (g : String),
      buildAppHierarchy p = some t →
      g ∉ (p.components.getD []).map Prod.fst →
      lookupPath t ["src", "components", g] = none) := by
  refine ⟨fun p s1 s2 => rfl, ?_, ?_⟩
  · intro p t g ht hgp hg1 hg2
    obtain ⟨t', D2, ht', hD2c, hD2s, hD2none, hsrc, hroot⟩ := build_char p
    rw [ht] at ht'
    injection ht' with ht''
    subst ht''
    have h1 := lookupPath_append_dir ["src"] t (mergeEntries D2 (p.pages.getD [])) g hsrc
    rw [assocLookup_mergeEntries_not_mem _ _ _ hgp, hD2none g hg1 hg2] at h1
    exact h1
  · intro p t g ht hgc
    obtain ⟨t', D2, ht', hD2c, hD2s, hD2none, hsrc, hroot⟩ := build_char p
    rw [ht] at ht'
    injection ht' with ht''
    subst ht''
    by_cases hpc : "components" ∈ (p.pages.getD []).map Prod.fst
    · obtain ⟨c, hfile⟩ := assocLookup_mergeEntries_key D2 (p.pages.getD []) "components" hpc
      have hM : assocLookup t "src" = some (FSNode.dir (mergeEntries D2 (p.pages.getD []))) := by
        rw [← lookupPath_one]
        exact hsrc
      show (match assocLookup t "src" with
        | some (FSNode.dir sub) => lookupPath sub ["components", g]
        | _ => none) = none
      rw [hM]
      show lookupPath (mergeEntries D2 (p.pages.getD [])) ["components", g] = none
      rw [lookupPath_pair, hfile]
    · have hMc : lookupPath t ["src", "components"] =
          some (FSNode.dir (mergeEntries [] (p.components.getD []))) := by
        have h1 := lookupPath_append_dir ["src"] t (mergeEntries D2 (p.pages.getD []))
          "components" hsrc
        rw [assocLookup_mergeEntries_not_mem _ _ _ hpc, hD2c] at h1
        exact h1
      have h2 := lookupPath_append_dir ["src", "components"] t _ g hMc
      rw [assocLookup_mergeEntries_not_mem _ _ _ hgc] at h2
      rw [show assocLookup [] g = none from rfl] at h2
      exact h2

theorem claim_C10_state_independent_rebuild_witness :
    uploadStep ⟨some [("Nav.jsx", "n")], some [("index.css", "c")], some [("main.jsx", "m")]⟩ [] =
      uploadStep ⟨some [("Nav.jsx", "n")], some [("index.css", "c")], some [("main.jsx", "m")]⟩
        clobberTree ∧
    lookupPath scenarioTree ["src", "Old.jsx"] = none ∧
    lookupPath scenarioTree ["src", "components", "Old.jsx"] = none :=
  ⟨claim_C10_state_independent_rebuild.1 _ [] clobberTree,
   claim_C10_state_independent_rebuild.2.1
     ⟨some [("Nav.jsx", "n")], some [("index.css", "c")], some [("main.jsx", "m")]⟩
     scenarioTree "Old.jsx" rfl (by decide) (by decide) (by decide),
   claim_C10_state_independent_rebuild.2.2
     ⟨some [("Nav.jsx", "n")], some [("index.css", "c")], some [("main.jsx", "m")]⟩
     scenarioTree "Old.jsx" rfl (by decide)⟩

/-- The sequence of createOrUpdateFile calls the loop of createFiles
makes when nothing fails, in order: file entries at their full path,
directory entries as their own loop followed by that invocation's
README write. -/
def traceLoop (currentPath : String) : Entries → List WriteCall
  | [] => []
  | (key, v) :: rest =>
    let fullPath := if currentPath = "" then key else currentPath ++ "/" ++ key
    (match v with
     | FSNode.file contents => [WriteCall.content fullPath contents]
     | FSNode.dir sub => traceLoop fullPath sub ++ [WriteCall.readme]) ++
      traceLoop currentPath rest

theorem attemptWrite_failed (fail : Nat → Bool) (w : WriteCall) (s : ExpSt)
    (h : s.failed = true) : attemptWrite fail w s = s := by
  simp [attemptWrite, h]

theorem attemptWrite_failAt (K : Nat) (w : WriteCall) (s : ExpSt)
    (h : s.failed = false) :
    attemptWrite (failAt K) w s = ⟨s.writes ++ [w], decide (s.writes.length = K)⟩ := by
  simp [attemptWrite, h, failAt]

theorem attemptWrite_noFail (w : WriteCall) (s : ExpSt) (h : s.failed = false) :
    attemptWrite noFail w s = ⟨s.writes ++ [w], false⟩ := by
  simp [attemptWrite, h, noFail]

theorem createFilesLoop_failed (fail : Nat → Bool) :
    ∀ (cp : String) (es : Entries) (s : ExpSt), s.failed = true →
      createFilesLoop fail cp es s = s
  | cp, [], s, h => by simp [createFilesLoop]
  | cp, (key, FSNode.file c) :: rest, s, h => by
    have hrest := createFilesLoop_failed fail cp rest s h
    simp [createFilesLoop, attemptWrite, h, hrest]
  | cp, (key, FSNode.dir sub) :: rest, s, h => by
    have hsub := createFilesLoop_failed fail (if cp = "" then key else cp ++ "/" ++ key) sub s h
    have hrest := createFilesLoop_failed fail cp rest s h
    simp [createFilesLoop, attemptWrite, h, hsub, hrest]

theorem createFilesLoop_noFail :
    ∀ (cp : String) (es : Entries) (s : ExpSt), s.failed = false →
      createFilesLoop noFail cp es s = ⟨s.writes ++ traceLoop cp es, false⟩
  | cp, [], s, h => by
    cases s with
    | mk w f =>
      simp at h
      subst h
      simp [createFilesLoop, traceLoop]
  | cp, (key, FSNode.file c) :: rest, s, h => by
    have hrest := createFilesLoop_noFail cp rest
      ⟨s.writes ++ [WriteCall.content (if cp = "" then key else cp ++ "/" ++ key) c], false⟩ rfl
    simp [createFilesLoop, attemptWrite, h, noFail, traceLoop, hrest]
  | cp, (key, FSNode.dir sub) :: rest, s, h => by
    have hsub := createFilesLoop_noFail (if cp = "" then key else cp ++ "/" ++ key) sub s h
    have hrest := createFilesLoop_noFail cp rest
      ⟨s.writes ++ (traceLoop (if cp = "" then key else cp ++ "/" ++ key) sub ++
        [WriteCall.readme]), false⟩ rfl
    simp [createFilesLoop, attemptWrite, h, noFail, traceLoop, hsub, hrest,
      List.append_assoc]

theorem take_append_left_of_le (l1 l2 : List WriteCall) (n : Nat) (h : n ≤ l1.length) :
    (l1 ++ l2).take n = l1.take n := by
  rw [List.take_append_eq_append_take]
  simp [Nat.sub_eq_zero_of_le h]

theorem take_append_right_of_ge (l1 l2 : List WriteCall) (n : Nat) (h : l1.length ≤ n) :
    (l1 ++ l2).take n = l1 ++ l2.take (n - l1.length) := by
  rw [List.take_append_eq_append_take, List.take_of_length_le h]

theorem createFilesLoop_failAt :
    ∀ (K : Nat) (cp : String) (es : Entries) (s : ExpSt), s.failed = false →
      createFilesLoop (failAt K) cp es s =
        if s.writes.length ≤ K ∧ K < s.writes.length + (traceLoop cp es).length
        then ⟨s.writes ++ (traceLoop cp es).take (K + 1 - s.writes.length), true⟩
        else ⟨s.writes ++ traceLoop cp es, false⟩
  | K, cp, [], s, h => by
    cases s with
    | mk w f =>
      simp at h
      subst h
      rw [show createFilesLoop (failAt K) cp [] ⟨w, false⟩ = ⟨w, false⟩ from by
        simp [createFilesLoop]]
      rw [if_neg (by simp only [traceLoop, List.length_nil]; omega)]
      simp [traceLoop]
  | K, cp, (key, FSNode.file c) :: rest, s, h => by
    obtain ⟨fp, hfp⟩ : ∃ fp, (if cp = "" then key else cp ++ "/" ++ key) = fp := ⟨_, rfl⟩
    have hunf : createFilesLoop (failAt K) cp ((key, FSNode.file c) :: rest) s =
        createFilesLoop (failAt K) cp rest
          (attemptWrite (failAt K) (WriteCall.content fp c) s) := by
      simp only [createFilesLoop, hfp]
    have htr : traceLoop cp ((key, FSNode.file c) :: rest) =
        WriteCall.content fp c :: traceLoop cp rest := by
      simp [traceLoop, hfp]
    rw [hunf, attemptWrite_failAt K _ s h, htr]
    by_cases hK : s.writes.length = K
    · rw [show (decide (s.writes.length = K)) = true from by simp [hK],
        createFilesLoop_failed _ _ _ _ rfl]
      have hcpos : s.writes.length ≤ K ∧
          K < s.writes.length + (WriteCall.content fp c :: traceLoop cp rest).length := by
        simp only [List.length_cons]
        omega
      rw [if_pos hcpos]
      have h1 : K + 1 - s.writes.length = 1 := by omega
      rw [h1]
      simp
    · rw [show (decide (s.writes.length = K)) = false from by simp [hK],
        createFilesLoop_failAt K cp rest ⟨s.writes ++ [WriteCall.content fp c], false⟩ rfl]
      by_cases hin : s.writes.length ≤ K ∧
          K < s.writes.length + (WriteCall.content fp c :: traceLoop cp rest).length
      · have hin1 : (s.writes ++ [WriteCall.content fp c]).length ≤ K ∧
            K < (s.writes ++ [WriteCall.content fp c]).length + (traceLoop cp rest).length := by
          simp only [List.length_append, List.length_cons, List.length_nil]
          simp only [List.length_cons] at hin
          omega
        rw [if_pos hin1, if_pos hin]
        have hn : K + 1 - s.writes.length = (K + 1 - (s.writes.length + 1)) + 1 := by
          simp only [List.length_cons] at hin
          omega
        have hlhs : K + 1 - (s.writes ++ [WriteCall.content fp c]).length =
            K + 1 - (s.writes.length + 1) := by
          simp only [List.length_append, List.length_cons, List.length_nil]
        rw [hn, hlhs, List.take_succ_cons]
        simp [List.append_assoc]
      · have hin1 : ¬ ((s.writes ++ [WriteCall.content fp c]).length ≤ K ∧
            K < (s.writes ++ [WriteCall.content fp c]).length + (traceLoop cp rest).length) := by
          simp only [List.length_append, List.length_cons, List.length_nil]
          simp only [List.length_cons] at hin
          omega
        rw [if_neg hin1, if_neg hin]
        simp [List.append_assoc]
  | K, cp, (key, FSNode.dir sub) :: rest, s, h => by
    obtain ⟨fp, hfp⟩ : ∃ fp, (if cp = "" then key else cp ++ "/" ++ key) = fp := ⟨_, rfl⟩
    have hunf : createFilesLoop (failAt K) cp ((key, FSNode.dir sub) :: rest) s =
        createFilesLoop (failAt K) cp rest
          (attemptWrite (failAt K) WriteCall.readme (createFilesLoop (failAt K) fp sub s)) := by
      simp only [createFilesLoop, hfp]
    have htr : traceLoop cp ((key, FSNode.dir sub) :: rest) =
        (traceLoop fp sub ++ [WriteCall.readme]) ++ traceLoop cp rest := by
      simp [traceLoop, hfp]
    rw [hunf, createFilesLoop_failAt K fp sub s h, htr]
    by_cases hin : s.writes.length ≤ K ∧ K < s.writes.length + (traceLoop fp sub).length
    · rw [if_pos hin, attemptWrite_failed _ _ _ rfl, createFilesLoop_failed _ _ _ _ rfl]
      have hout : s.writes.length ≤ K ∧ K < s.writes.length +
          ((traceLoop fp sub ++ [WriteCall.readme]) ++ traceLoop cp rest).length := by
        simp only [List.length_append, List.length_cons, List.length_nil]
        omega
      rw [if_pos hout]
      have hlen : K + 1 - s.writes.length ≤ (traceLoop fp sub).length := by omega
      rw [take_append_left_of_le _ _ _
          (by simp only [List.length_append, List.length_cons, List.length_nil]; omega),
        take_append_left_of_le _ _ _ hlen]
    · rw [if_neg hin, attemptWrite_failAt _ _ _ rfl]
      by_cases hK : (s.writes ++ traceLoop fp sub).length = K
      · have hKlen : s.writes.length + (traceLoop fp sub).length = K := by
          simpa using hK
        rw [show (decide ((s.writes ++ traceLoop fp sub).length = K)) = true from by simp [hK],
          createFilesLoop_failed _ _ _ _ rfl]
        have hout : s.writes.length ≤ K ∧ K < s.writes.length +
            ((traceLoop fp sub ++ [WriteCall.readme]) ++ traceLoop cp rest).length := by
          simp only [List.length_append, List.length_cons, List.length_nil]
          omega
        rw [if_pos hout]
        have hn : K + 1 - s.writes.length = (traceLoop fp sub).length + 1 := by omega
        rw [hn,
          take_append_left_of_le _ _ _
            (by simp only [List.length_append, List.length_cons, List.length_nil]; omega),
          List.take_of_length_le
            (by simp only [List.length_append, List.length_cons, List.length_nil]; omega)]
        simp [List.append_assoc]
      · have hKlen : ¬ (s.writes.length + (traceLoop fp sub).length = K) := by
          simpa using hK
        rw [show (decide ((s.writes ++ traceLoop fp sub).length = K)) = false from by
            simp [hKlen],
          createFilesLoop_failAt K cp rest
            ⟨(s.writes ++ traceLoop fp sub) ++ [WriteCall.readme], false⟩ rfl]
        by_cases hout : s.writes.length ≤ K ∧ K < s.writes.length +
            ((traceLoop fp sub ++ [WriteCall.readme]) ++ traceLoop cp rest).length
        · have hin2 : ((s.writes ++ traceLoop fp sub) ++ [WriteCall.readme]).length ≤ K ∧
              K < ((s.writes ++ traceLoop fp sub) ++ [WriteCall.readme]).length +
                (traceLoop cp rest).length := by
            simp only [List.length_append, List.length_cons, List.length_nil]
            simp only [List.length_append, List.length_cons, List.length_nil] at hout
            omega
          rw [if_pos hin2, if_pos hout]
          have hge2 : s.writes.length + (traceLoop fp sub).length + 1 ≤ K := by
            simp only [List.length_append, List.length_cons, List.length_nil] at hin2
            omega
          have hn : K + 1 - s.writes.length =
              ((traceLoop fp sub).length + 1) +
                (K + 1 - (s.writes.length + (traceLoop fp sub).length + 1)) := by
            omega
          rw [hn, take_append_right_of_ge _ _ _
            (by simp only [List.length_append, List.length_cons, List.length_nil]; omega)]
          have hsub2 : ((traceLoop fp sub).length + 1) +
              (K + 1 - (s.writes.length + (traceLoop fp sub).length + 1)) -
              (traceLoop fp sub ++ [WriteCall.readme]).length =
              K + 1 - (s.writes.length + (traceLoop fp sub).length + 1) := by
            simp only [List.length_append, List.length_cons, List.length_nil]
            omega
          have hlhs : K + 1 - ((s.writes ++ traceLoop fp sub) ++ [WriteCall.readme]).length =
              K + 1 - (s.writes.length + (traceLoop fp sub).length + 1) := by
            simp only [List.length_append, List.length_cons, List.length_nil]
          rw [hsub2, hlhs]
          simp [List.append_assoc]
        · have hin2 : ¬ (((s.writes ++ traceLoop fp sub) ++ [WriteCall.readme]).length ≤ K ∧
              K < ((s.writes ++ traceLoop fp sub) ++ [WriteCall.readme]).length +
                (traceLoop cp rest).length) := by
            simp only [List.length_append, List.length_cons, List.length_nil]
            simp only [List.length_append, List.length_cons, List.length_nil] at hout
            omega
          rw [if_neg hin2, if_neg hout]
          simp [List.append_assoc]

/-- C2: if the K-th createOrUpdateFile call of an export throws, the
walk stops there: the attempted calls are exactly the first K+1 calls
of the failure-free trace (so no later file write and no later README
write is attempted), the walk ends in the thrown state, and the export
response reports failure (success false via the 500 handler) instead
of success. -/
theorem claim_C2_failed_write_stops_export (entries : Entries) (K : Nat)
    (hK : K < (exportRun noFail entries).writes.length) :
    (exportRun (failAt K) entries).writes =
      (exportRun noFail entries).writes.take (K + 1) ∧
    (exportRun (failAt K) entries).failed = true ∧
    exportRespSuccess (failAt K) entries = false := by
  have hclean : exportRun noFail entries =
      ⟨traceLoop "" entries ++ [WriteCall.readme], false⟩ := by
    have h1 : exportRun noFail entries =
        attemptWrite noFail WriteCall.readme (createFilesLoop noFail "" entries ⟨[], false⟩) := by
      simp only [exportRun, createFiles]
    rw [h1, createFilesLoop_noFail "" entries ⟨[], false⟩ rfl, attemptWrite_noFail _ _ rfl]
    simp
  have hlen : K ≤ (traceLoop "" entries).length := by
    rw [hclean] at hK
    simp at hK
    omega
  have hfail : exportRun (failAt K) entries =
      attemptWrite (failAt K) WriteCall.readme (createFilesLoop (failAt K) "" entries ⟨[], false⟩) := by
    simp only [exportRun, createFiles]
  have hloop := createFilesLoop_failAt K "" entries ⟨[], false⟩ rfl
  simp only [List.length_nil, List.nil_append, Nat.zero_add, Nat.zero_le, true_and,
    Nat.sub_zero] at hloop
  by_cases hin : K < (traceLoop "" entries).length
  · rw [if_pos hin] at hloop
    rw [hloop, attemptWrite_failed _ _ _ rfl] at hfail
    refine ⟨?_, by rw [hfail], by simp [exportRespSuccess, hfail]⟩
    rw [hfail, hclean]
    show (traceLoop "" entries).take (K + 1) =
      (traceLoop "" entries ++ [WriteCall.readme]).take (K + 1)
    rw [take_append_left_of_le _ _ _ (by omega)]
  · have hKeq : K = (traceLoop "" entries).length := by omega
    rw [if_neg hin] at hloop
    rw [hloop, attemptWrite_failAt _ _ _ rfl] at hfail
    rw [show (decide ((⟨traceLoop "" entries, false⟩ : ExpSt).writes.length = K)) = true from by
      simp [hKeq]] at hfail
    refine ⟨?_, by rw [hfail], by simp [exportRespSuccess, hfail]⟩
    rw [hfail, hclean]
    show traceLoop "" entries ++ [WriteCall.readme] =
      (traceLoop "" entries ++ [WriteCall.readme]).take (K + 1)
    rw [List.take_of_length_le (by simp [hKeq])]

theorem claim_C2_failed_write_stops_export_witness :
    (exportRun (failAt 0) [("a.txt", FSNode.file "x"), ("b.txt", FSNode.file "y")]).writes =
      (exportRun noFail [("a.txt", FSNode.file "x"), ("b.txt", FSNode.file "y")]).writes.take 1 ∧
    (exportRun (failAt 0) [("a.txt", FSNode.file "x"), ("b.txt", FSNode.file "y")]).failed = true ∧
    exportRespSuccess (failAt 0) [("a.txt", FSNode.file "x"), ("b.txt", FSNode.file "y")] = false :=
  claim_C2_failed_write_stops_export [("a.txt", FSNode.file "x"), ("b.txt", FSNode.file "y")] 0
    (by simp [exportRun, createFiles, createFilesLoop, attemptWrite, noFail])
